import Mathlib

/-!
Shallow embedding of the epub2audio "reformat" core
(`src/epub2audio/reformat/extract.py` and
`src/epub2audio/reformat/create_audiobook.py`) and proofs about it.

Strings are modelled as `List Char`; Python string methods used by the
code (`strip`, `lower`, `lstrip`, `split`, `replace`, `isdigit`, ...)
are embedded as functions on `List Char`.
-/

namespace Epub2Audio

abbrev Str := List Char

/-- Python whitespace characters (the ASCII ones relevant to `str.strip`
and `str.split`). -/
def isPySpace (c : Char) : Bool :=
  c == ' ' || c == '\t' || c == '\n' || c == '\r' || c == '\x0b' || c == '\x0c'

/-- Python `str.strip()` with no argument: drop whitespace from both ends. -/
def pyStrip (s : Str) : Str :=
  ((s.dropWhile isPySpace).reverse.dropWhile isPySpace).reverse

/-- Python `str.lower()` (ASCII letters). -/
def toLowerStr (s : Str) : Str := s.map Char.toLower

/-- Python `int(...)` on a run of decimal digits. -/
def digitsToNat (ds : Str) : Nat :=
  ds.foldl (fun acc c => 10 * acc + (c.toNat - 48)) 0

/-- Decimal rendering of a natural number, as the f-string `f"{n}"` produces. -/
def natRepr (n : Nat) : Str := Nat.toDigits 10 n

/-- `startsWithL pre s` holds when `pre` is a leading segment of `s`. -/
def startsWithL : Str → Str → Bool
  | [], _ => true
  | _ :: _, [] => false
  | a :: as, b :: bs => a == b && startsWithL as bs

/-- Python `str.endswith`. -/
def endsWithL (suf s : Str) : Bool := startsWithL suf.reverse s.reverse

/-- Python `sub in s` substring containment. -/
def containsSub (sub : Str) : Str → Bool
  | [] => sub.isEmpty
  | c :: rest => startsWithL sub (c :: rest) || containsSub sub rest

/-- Python `str.lstrip(cutset)`: drop leading characters drawn from the
character SET `cutset` (not the prefix `cutset`). -/
def pyLstripSet (s : Str) (cutset : Str) : Str :=
  s.dropWhile (fun c => cutset.contains c)

/-- Python `str.isdigit()` for ASCII strings. -/
def pyIsdigit (s : Str) : Bool := !s.isEmpty && s.all Char.isDigit

/-! ## extract.py -/

/-- `_BACK_MATTER_KEYWORDS` from extract.py. -/
def BACK_MATTER_KEYWORDS : List Str :=
  ["about the author".toList, "acknowledgments".toList, "acknowledgements".toList,
   "afterword".toList, "also in series".toList, "appendix".toList,
   "back matter".toList, "bibliography".toList, "colophon".toList,
   "contents".toList, "copyright".toList, "epilogue".toList, "glossary".toList,
   "index".toList, "notes".toList, "other books".toList, "permissions".toList,
   "praise".toList, "references".toList, "resources".toList, "thank you".toList]

/-- `_FONT_EXTENSIONS` from extract.py. -/
def FONT_EXTENSIONS : List Str :=
  [".ttf".toList, ".otf".toList, ".woff".toList, ".woff2".toList]

/-- `_should_skip_entry(title, chapter_path)` from extract.py.
`chapter_path` may be Python `None`, embedded as `none`. -/
def _should_skip_entry (title : Str) (chapter_path : Option Str) : Bool :=
  let title_lower := toLowerStr (pyStrip title)
  let path_lower : Str :=
    match chapter_path with
    | some p => if p.isEmpty then [] else toLowerStr (pyStrip p)
    | none => []
  if containsSub "font".toList title_lower || containsSub "font".toList path_lower then
    true
  else if FONT_EXTENSIONS.any (fun e => endsWithL e path_lower) then
    true
  else if BACK_MATTER_KEYWORDS.any (fun kw => containsSub kw title_lower) then
    true
  else
    false

/-- `_parse_chapter_number(title)` from extract.py: `re.search(r"^(\d+)\.", title)`
applied to an optional title; `None` and the empty string yield `none`. -/
def _parse_chapter_number (title : Option Str) : Option Nat :=
  match title with
  | none => none
  | some t =>
    if t.isEmpty then none
    else
      let digits := t.takeWhile Char.isDigit
      if digits.isEmpty then none
      else
        match t.drop digits.length with
        | '.' :: _ => some (digitsToNat digits)
        | _ => none

/-- The `content` element of a navPoint: may carry a `src` attribute. -/
structure ContentNode where
  src : Option Str
deriving DecidableEq

/-- One `navPoint` of the navigation document, as read by generate_toc:
the text of `navLabel/text` (if present) and the `content` node (if present). -/
structure NavPoint where
  labelText : Option Str
  content : Option ContentNode
deriving DecidableEq

/-- `chapter_path = content_node.get("src") if content_node is not None else ""`. -/
def navChapterPath (p : NavPoint) : Option Str :=
  match p.content with
  | some c => c.src
  | none => some []

/-- One row of the persisted toc.json manifest as generate_toc builds it. -/
structure TocEntry where
  order : Nat
  chapter_number : Option Nat
  chapter_title : Str
  chapter_path : Option Str
deriving DecidableEq

/-- Python truthiness of an optional integer (`if chapter_number:`). -/
def truthyNum : Option Nat → Bool
  | some n => n != 0
  | none => false

/-- `title = (label_node.text or "").strip() if label_node is not None else ""`. -/
def navTitle (p : NavPoint) : Str :=
  match p.labelText with
  | some t => pyStrip t
  | none => []

/-- The per-navPoint body of the generate_toc loop (extract.py lines 134-167):
extract the title and path, parse the chapter number, lstrip the numeral
cutset when the number is truthy, then drop the point when the number is
falsy or the skip classifier fires; otherwise emit the manifest row. -/
def processNavPoint (order : Nat) (p : NavPoint) : Option TocEntry :=
  let title : Str := navTitle p
  let chapter_path := navChapterPath p
  let chapter_number := _parse_chapter_number (some title)
  let title :=
    if truthyNum chapter_number then
      pyLstripSet title (natRepr (chapter_number.getD 0) ++ ". ".toList)
    else title
  if !truthyNum chapter_number then none
  else if _should_skip_entry title chapter_path then none
  else
    some { order := order, chapter_number := chapter_number,
           chapter_title := title, chapter_path := chapter_path }

/-- `enumerate(points, start=n)`. -/
def enumFrom : Nat → List α → List (Nat × α)
  | _, [] => []
  | n, p :: ps => (n, p) :: enumFrom (n + 1) ps

/-- The pure core of generate_toc: walk all navPoints in traversal order,
numbering from 1, and keep the survivors. -/
def generate_toc_entries (points : List NavPoint) : List TocEntry :=
  (enumFrom 1 points).filterMap (fun op => processNavPoint op.1 op.2)

/-- Error taxonomy of the generate_toc run (FileNotFoundError for the
directory / toc.ncx, ElementTree ParseError for malformed XML). -/
inductive TocError
  | dirNotFound
  | ncxNotFound
  | parseError
deriving DecidableEq

/-- The parsed navigation document: whether a `navMap` element is present,
and the flattened document-order list of its `navPoint` descendants. -/
structure NavDoc where
  hasNavMap : Bool
  points : List NavPoint

/-- The filesystem facts generate_toc consults: whether the extracted
directory exists, whether `toc.ncx` sits at its root, the `rglob` results
for `toc.ncx` otherwise, and the XML parse result of the located file
(`none` = malformed XML). -/
structure ExtractedDir where
  dirExists : Bool
  tocAtRoot : Bool
  tocRglob : List Str
  parsed : Option NavDoc

/-- `_find_toc_ncx` from extract.py: root candidate first, else the first
`rglob` match, else FileNotFoundError. -/
def _find_toc_ncx (d : ExtractedDir) : Except TocError Unit :=
  if d.tocAtRoot then Except.ok ()
  else if d.tocRglob.isEmpty then Except.error TocError.ncxNotFound
  else Except.ok ()

/-- `generate_toc` from extract.py as a run over the filesystem facts:
directory check, toc.ncx location, XML parse, missing navMap short-circuit,
then the navPoint loop. -/
def generate_toc_run (d : ExtractedDir) : Except TocError (List TocEntry) :=
  if !d.dirExists then Except.error TocError.dirNotFound
  else
    match _find_toc_ncx d with
    | Except.error e => Except.error e
    | Except.ok _ =>
      match d.parsed with
      | none => Except.error TocError.parseError
      | some doc =>
        if !doc.hasNavMap then Except.ok []
        else Except.ok (generate_toc_entries doc.points)

/-- One row of the persisted toc.json artifact including the optional
`markdown` / `audio` annotations that downstream stages add. -/
structure PersistedEntry where
  order : Nat
  chapter_number : Option Nat
  chapter_title : Str
  chapter_path : Option Str
  markdown : Option Str
  audio : Option Str
deriving DecidableEq

/-- Serialization of one freshly built row: generate_toc emits only the
four keys `order`/`chapter_number`/`chapter_title`/`chapter_path`. -/
def builderPersist (e : TocEntry) : PersistedEntry :=
  { order := e.order, chapter_number := e.chapter_number,
    chapter_title := e.chapter_title, chapter_path := e.chapter_path,
    markdown := none, audio := none }

/-- The toc.json write at the end of generate_toc (extract.py lines
173-185): the file is opened in mode "w" and `json.dump(toc, ...)` writes
the freshly derived list; the previous artifact content is never read.
The state-passing embedding therefore maps the old artifact `_prev` to
the serialization of the new derivation. -/
def generate_toc_write (points : List NavPoint) (_prev : List PersistedEntry) :
    List PersistedEntry :=
  (generate_toc_entries points).map builderPersist

/-! ## create_audiobook.py -/

/-- `[a-z0-9]`: the characters the normalization keeps. -/
def isLowerAlnum (c : Char) : Bool :=
  (97 ≤ c.toNat && c.toNat ≤ 122) || (48 ≤ c.toNat && c.toNat ≤ 57)

/-- `re.sub(r"[^a-z0-9]+", " ", s)` run state: the flag records whether the
previous character belonged to a non-alphanumeric run already replaced. -/
def squashRuns : Bool → Str → Str
  | _, [] => []
  | inRun, c :: rest =>
    if isLowerAlnum c then c :: squashRuns false rest
    else if inRun then squashRuns true rest
    else ' ' :: squashRuns true rest

/-- `re.sub(r"[^a-z0-9]+", " ", s)`: each maximal run of characters outside
`[a-z0-9]` becomes a single space. -/
def subNonAlnum (s : Str) : Str := squashRuns false s

/-- Helper for Python `str.split()`: `acc` is the current word, reversed. -/
def splitAux : Str → Str → List Str
  | acc, [] => if acc.isEmpty then [] else [acc.reverse]
  | acc, c :: rest =>
    if isPySpace c then
      if acc.isEmpty then splitAux [] rest
      else acc.reverse :: splitAux [] rest
    else splitAux (c :: acc) rest

/-- Python `str.split()` with no argument: split on whitespace runs,
discarding empty fields. -/
def pySplit (s : Str) : List Str := splitAux [] s

/-- `" ".join(words)`. -/
def joinSpace : List Str → Str
  | [] => []
  | [w] => w
  | w :: ws => w ++ ' ' :: joinSpace ws

/-- `_normalize_title(value)` from create_audiobook.py: strip, lowercase,
replace non-alphanumeric runs with spaces, then re-split and re-join. -/
def _normalize_title (value : Str) : Str :=
  let lowered := toLowerStr (pyStrip value)
  let cleaned := subNonAlnum lowered
  joinSpace (pySplit cleaned)

/-- Python single-character `str.replace(old, new)`. -/
def replaceChar (old : Char) (new : Str) (s : Str) : Str :=
  (s.map (fun c => if c == old then new else [c])).flatten

/-- `_escape_ffmetadata(value)` from create_audiobook.py: the chained
`replace` calls, applied in source order. -/
def _escape_ffmetadata (value : Str) : Str :=
  replaceChar '#' "\\#".toList
    (replaceChar ';' "\\;".toList
      (replaceChar '=' "\\=".toList
        (replaceChar '\n' " ".toList
          (replaceChar '\\' "\\\\".toList value))))

/-- The recognized audio extensions of `_index_audio_files`. -/
def AUDIO_EXTS : List Str :=
  [".m4a".toList, ".m4b".toList, ".mp3".toList, ".aac".toList]

/-- One item of the audio directory listing: its file name and whether it
is a regular file. -/
structure DirFile where
  name : Str
  isFile : Bool
deriving DecidableEq

/-- `pathlib.Path.suffix` of a file name: the part from the last dot,
provided that dot is neither the first nor the last character. -/
def pySuffix (name : Str) : Str :=
  match name.reverse.findIdx? (fun c => c == '.') with
  | none => []
  | some j =>
    let i := name.length - 1 - j
    if 0 < i && i < name.length - 1 then name.drop i else []

/-- `pathlib.Path.stem` of a file name: the complement of `pySuffix`. -/
def pyStem (name : Str) : Str :=
  match name.reverse.findIdx? (fun c => c == '.') with
  | none => name
  | some j =>
    let i := name.length - 1 - j
    if 0 < i && i < name.length - 1 then name.take i else name

/-- The separator character class `[.\-â€“:_)]` of the stem regex in
`_index_audio_files` (the source file carries the en dash mojibake
literally, so the class contains those three characters). -/
def SEP_CHARS : Str := ['.', '-', 'â', '€', '“', ':', '_', ')']

/-- `re.match(r"^\s*(\d+)\s*[.\-â€“:_)]\s*(.*)$", stem)`: on success returns
`(int(group(1)), group(2))`. The regex is deterministic because `\s`, `\d`
and the separator class are pairwise disjoint. -/
def matchLeadingNum (stem : Str) : Option (Nat × Str) :=
  let s1 := stem.dropWhile isPySpace
  let digits := s1.takeWhile Char.isDigit
  if digits.isEmpty then none
  else
    let s2 := (s1.drop digits.length).dropWhile isPySpace
    match s2 with
    | [] => none
    | c :: rest =>
      if SEP_CHARS.contains c then some (digitsToNat digits, rest.dropWhile isPySpace)
      else none

/-- Association-list lookup for the number index (`dict.get` semantics). -/
def lookupNumL (m : List (Nat × Str)) (k : Nat) : Option Str :=
  (m.find? (fun kv => kv.1 == k)).map (fun kv => kv.2)

/-- Association-list lookup for the title index (`dict.get` semantics). -/
def lookupStrL (m : List (Str × Str)) (k : Str) : Option Str :=
  (m.find? (fun kv => kv.1 == k)).map (fun kv => kv.2)

/-- `dict.setdefault(k, v)` on the number index. -/
def setdefaultNum (m : List (Nat × Str)) (k : Nat) (v : Str) : List (Nat × Str) :=
  if (lookupNumL m k).isSome then m else m ++ [(k, v)]

/-- `dict.setdefault(k, v)` on the title index. -/
def setdefaultStr (m : List (Str × Str)) (k : Str) (v : Str) : List (Str × Str) :=
  if (lookupStrL m k).isSome then m else m ++ [(k, v)]

/-- Ordinal (code point) comparison of strings, as Python `sorted` compares
the names of a flat directory. -/
def lexLe : Str → Str → Bool
  | [], _ => true
  | _ :: _, [] => false
  | a :: as, b :: bs => if a == b then lexLe as bs else decide (a.toNat < b.toNat)

/-- Stable insertion into a name-sorted listing. -/
def insertSorted (x : DirFile) : List DirFile → List DirFile
  | [] => [x]
  | y :: ys => if lexLe x.name y.name then x :: y :: ys else y :: insertSorted x ys

/-- `sorted(audio_root.iterdir())` for a flat directory: stable sort of the
listing by file name. -/
def sortByName (files : List DirFile) : List DirFile :=
  files.foldr insertSorted []

/-- The two indices built by `_index_audio_files`. -/
structure AudioIndex where
  by_number : List (Nat × Str)
  by_title : List (Str × Str)
deriving DecidableEq

/-- The per-file body of the `_index_audio_files` loop (lines 56-70):
skip non-files and unrecognized extensions, then register the leading
number (setdefault) and the normalized title fragment (setdefault). -/
def indexFile (acc : AudioIndex) (f : DirFile) : AudioIndex :=
  if !f.isFile then acc
  else if !(AUDIO_EXTS.contains (toLowerStr (pySuffix f.name))) then acc
  else
    let stem := pyStem f.name
    match matchLeadingNum stem with
    | some ng =>
      let title_part := pyStrip ng.2
      let acc1 : AudioIndex :=
        { acc with by_number := setdefaultNum acc.by_number ng.1 f.name }
      if title_part.isEmpty then acc1
      else { acc1 with
              by_title := setdefaultStr acc1.by_title (_normalize_title title_part) f.name }
    | none =>
      let title_part := stem
      if title_part.isEmpty then acc
      else { acc with
              by_title := setdefaultStr acc.by_title (_normalize_title title_part) f.name }

/-- `_index_audio_files(audio_root)`: empty indices when the directory is
missing, else a fold of `indexFile` over the name-sorted listing. -/
def _index_audio_files (dirExists : Bool) (listing : List DirFile) : AudioIndex :=
  if !dirExists then ⟨[], []⟩
  else (sortByName listing).foldl indexFile ⟨[], []⟩

/-- A JSON number-or-string value, as `entry.get("chapter_number")` may
return either from toc.json. -/
inductive JNum
  | int (n : Int)
  | str (s : Str)
deriving DecidableEq

/-- One toc.json row as `_build_audiobook` reads it. -/
structure BookEntry where
  order : Option Int
  chapter_number : Option JNum
  chapter_title : Option Str
  audio : Option Str
deriving DecidableEq

/-- Python truthiness of the optional `chapter_number` JSON value. -/
def jnumTruthy : Option JNum → Bool
  | none => false
  | some (JNum.int n) => n != 0
  | some (JNum.str s) => !s.isEmpty

/-- f-string rendering of a chapter-number JSON value. -/
def jnumRender : JNum → Str
  | JNum.int n => if n < 0 then '-' :: natRepr n.natAbs else natRepr n.toNat
  | JNum.str s => s

/-- The filesystem facts the reconciler consults about stored audio paths. -/
structure FileSys where
  pathExists : Str → Bool
  isAbsolute : Str → Bool

/-- `audio_root / p` for a relative `p`. -/
def joinPath (root p : Str) : Str := root ++ '/' :: p

/-- Cascade tier 1 (lines 213-221): the stored `audio` value, resolved
against `audio_root` when relative and missing, kept when it exists. -/
def tierStored (fs : FileSys) (audio_root : Str) (e : BookEntry) : Option Str :=
  match e.audio with
  | none => none
  | some av =>
    if av.isEmpty then none
    else
      let p := if !fs.isAbsolute av && !fs.pathExists av then joinPath audio_root av else av
      if fs.pathExists p then some p else none

/-- Cascade tier 2 (lines 224-228): the entry's `chapter_number` (int, or
digit string) looked up in the by-leading-number index. -/
def tierNumber (by_number : List (Nat × Str)) (e : BookEntry) : Option Str :=
  match e.chapter_number with
  | some (JNum.int n) => if n < 0 then none else lookupNumL by_number n.toNat
  | some (JNum.str s) => if pyIsdigit s then lookupNumL by_number (digitsToNat s) else none
  | none => none

/-- Cascade tier 3 (lines 229-232): the entry's `order` looked up in the
by-leading-number index. -/
def tierOrder (by_number : List (Nat × Str)) (e : BookEntry) : Option Str :=
  match e.order with
  | some n => if n < 0 then none else lookupNumL by_number n.toNat
  | none => none

/-- Cascade tier 4 (lines 234-237): the normalized title looked up in the
by-normalized-title index, when the title is a non-blank string. -/
def tierTitle (by_title : List (Str × Str)) (e : BookEntry) : Option Str :=
  match e.chapter_title with
  | some t => if (pyStrip t).isEmpty then none else lookupStrL by_title (_normalize_title t)
  | none => none

/-- The per-entry resolution of `_build_audiobook` (lines 212-237): the
stored-path computation runs first, then each `if audio_path is None:`
block tries the next lookup; `tierStored`/`tierNumber`/`tierOrder`/
`tierTitle` above transcribe the four blocks line by line. -/
def resolveEntry (fs : FileSys) (audio_root : Str) (by_number : List (Nat × Str))
    (by_title : List (Str × Str)) (e : BookEntry) : Option Str :=
  let audio_path := tierStored fs audio_root e
  let audio_path : Option Str :=
    match audio_path with
    | some p => some p
    | none =>
      match tierNumber by_number e with
      | some p => some p
      | none => tierOrder by_number e
  let audio_path : Option Str :=
    match audio_path with
    | some p => some p
    | none => tierTitle by_title e
  audio_path

/-- The resolution loop of `_build_audiobook` (lines 210-247): resolved
entries are appended in order to `audio_paths`/`used_entries`; entries
with no match are reported (warning) and skipped — returned here as the
second component. -/
def _build_audiobook_resolve (fs : FileSys) (audio_root : Str)
    (by_number : List (Nat × Str)) (by_title : List (Str × Str)) :
    List BookEntry → List (BookEntry × Str) × List BookEntry
  | [] => ([], [])
  | e :: rest =>
    let tail := _build_audiobook_resolve fs audio_root by_number by_title rest
    match resolveEntry fs audio_root by_number by_title e with
    | some p => ((e, p) :: tail.1, tail.2)
    | none => (tail.1, e :: tail.2)

/-! ### `_build_ffmetadata` -/

/-- One `[CHAPTER]` record of the ffmetadata chapters file. -/
structure FfChapter where
  startMs : Nat
  endMs : Nat
  titleLine : Str
deriving DecidableEq

/-- The chapter-title rendering of `_build_ffmetadata` (lines 172-180):
`raw_title = entry.get("chapter_title") or audio_path.stem`, prefixed with
`Chapter {n}` when the entry's chapter number is truthy. -/
def ffChapterTitle (e : BookEntry) (path : Str) : Str :=
  let raw_title : Str :=
    match e.chapter_title with
    | some t => if t.isEmpty then pyStem path else t
    | none => pyStem path
  if jnumTruthy e.chapter_number then
    match e.chapter_number with
    | some cn =>
      if !raw_title.isEmpty then
        "Chapter ".toList ++ jnumRender cn ++ ": ".toList ++ raw_title
      else "Chapter ".toList ++ jnumRender cn
    | none => raw_title
  else raw_title

/-- The `[CHAPTER]` loop of `_build_ffmetadata` (lines 169-191): probe each
audio file's duration, render the chapter title, emit a record spanning
`[current_ms, current_ms + duration_ms)`, and accumulate `current_ms`. -/
def ffChaptersGo (probe : Str → Nat) : List (BookEntry × Str) → Nat → List FfChapter
  | [], _ => []
  | ep :: rest, current_ms =>
    let duration_ms := probe ep.2
    { startMs := current_ms, endMs := current_ms + duration_ms,
      titleLine := _escape_ffmetadata (ffChapterTitle ep.1 ep.2) }
      :: ffChaptersGo probe rest (current_ms + duration_ms)

/-- `_build_ffmetadata(entries, audio_paths, ...)` chapter records:
`zip(entries, audio_paths, strict=True)` raises on a length mismatch
(`none`); otherwise the loop starts at `current_ms = 0`. -/
def _build_ffmetadata (entries : List BookEntry) (audio_paths : List Str)
    (probe : Str → Nat) : Option (List FfChapter) :=
  if entries.length ≠ audio_paths.length then none
  else some (ffChaptersGo probe (entries.zip audio_paths) 0)

/-! ## Derived definitions used by the statements -/

/-- Per-character description of `_escape_ffmetadata`: backslash, `=`, `;`
and `#` gain a backslash; a newline becomes a plain space. -/
def escChar (c : Char) : Str :=
  if c == '\\' then ['\\', '\\']
  else if c == '\n' then [' ']
  else if c == '=' then ['\\', '=']
  else if c == ';' then ['\\', ';']
  else if c == '#' then ['\\', '#']
  else [c]

/-- A directory item survives the indexer's filters: a regular file with a
recognized audio extension. -/
def fileEligible (f : DirFile) : Bool :=
  f.isFile && AUDIO_EXTS.contains (toLowerStr (pySuffix f.name))

/-- The leading number an eligible file registers in `by_number`, if any. -/
def fileNumber (f : DirFile) : Option Nat :=
  (matchLeadingNum (pyStem f.name)).map Prod.fst

/-- The normalized-title key an eligible file registers in `by_title`, if any. -/
def fileTitleKey (f : DirFile) : Option Str :=
  match matchLeadingNum (pyStem f.name) with
  | some ng =>
    if (pyStrip ng.2).isEmpty then none else some (_normalize_title (pyStrip ng.2))
  | none =>
    if (pyStem f.name).isEmpty then none else some (_normalize_title (pyStem f.name))

/-- C1's boundary invariants for chapter records `chs` built from the
duration list `ds`: as many records as durations; record `i` starts at
`d1 + ... + di-1` and ends at `d1 + ... + di`; the first record starts at
0 and the last ends at the total; adjacent records are contiguous. -/
def BoundariesOk (ds : List Nat) (chs : List FfChapter) : Prop :=
  chs.length = ds.length ∧
  (∀ (i : Nat) (hi : i < chs.length),
      (chs.get ⟨i, hi⟩).startMs = (ds.take i).sum ∧
      (chs.get ⟨i, hi⟩).endMs = (ds.take (i + 1)).sum ∧
      ∃ d, ds.get? i = some d ∧
        (chs.get ⟨i, hi⟩).endMs = (chs.get ⟨i, hi⟩).startMs + d) ∧
  (∀ h : chs ≠ [], (chs.head h).startMs = 0 ∧ (chs.getLast h).endMs = ds.sum) ∧
  (∀ (i : Nat) (hi : i + 1 < chs.length),
      (chs.get ⟨i + 1, hi⟩).startMs = (chs.get ⟨i, Nat.lt_of_succ_lt hi⟩).endMs)

/-- C2's cascade shape: the resolver is exactly the first-hit-wins chain of
the four tiers. -/
def CascadeOk (fs : FileSys) (root : Str) (bn : List (Nat × Str))
    (bt : List (Str × Str)) (e : BookEntry) : Prop :=
  resolveEntry fs root bn bt e =
    (tierStored fs root e).orElse (fun _ =>
      (tierNumber bn e).orElse (fun _ =>
        (tierOrder bn e).orElse (fun _ => tierTitle bt e)))

/-- C7's order invariants: survivor `order`s are strictly increasing, and
each one is the 1-based traversal position of the navPoint it came from. -/
def OrdersOk (points : List NavPoint) : Prop :=
  ((generate_toc_entries points).map TocEntry.order).Pairwise (· < ·) ∧
  ∀ e ∈ generate_toc_entries points,
    1 ≤ e.order ∧ e.order ≤ points.length ∧
    ∃ p, points.get? (e.order - 1) = some p ∧ processNavPoint e.order p = some e

/-- C8's indexer contract: a missing directory yields empty indices, and
each index slot holds the first file, in sorted-filtered directory order,
that registers that key. -/
def IndexOk (listing : List DirFile) : Prop :=
  _index_audio_files false listing = ⟨[], []⟩ ∧
  (∀ n : Nat,
      lookupNumL (_index_audio_files true listing).by_number n =
        (((sortByName listing).filter fileEligible).find?
            (fun f => fileNumber f == some n)).map DirFile.name) ∧
  (∀ t : Str,
      lookupStrL (_index_audio_files true listing).by_title t =
        (((sortByName listing).filter fileEligible).find?
            (fun f => fileTitleKey f == some t)).map DirFile.name)

/-! ## Concrete inputs for witnesses and counterexamples -/

def wNav : List NavPoint := [⟨some "1. A".toList, some ⟨some "c1.xhtml".toList⟩⟩]

def wPrev : List PersistedEntry :=
  [{ order := 1, chapter_number := some 1, chapter_title := "A".toList,
     chapter_path := some "c1.xhtml".toList, markdown := some "m.md".toList,
     audio := some "a.m4a".toList }]

def wPrev2 : List PersistedEntry := []

def wWritten : PersistedEntry :=
  { order := 1, chapter_number := some 1, chapter_title := "A".toList,
    chapter_path := some "c1.xhtml".toList, markdown := none, audio := none }

def wNoNcxDir : ExtractedDir := ⟨true, false, [], none⟩

def wEmptyNavDoc : NavDoc := ⟨true, []⟩

def wEmptyNavDir : ExtractedDir := ⟨true, true, [], some wEmptyNavDoc⟩

def wPoints : List NavPoint :=
  [⟨some "1. Prologue".toList, some ⟨some "p.xhtml".toList⟩⟩,
   ⟨some "Interlude".toList, some ⟨some "i.xhtml".toList⟩⟩,
   ⟨some "3. The End".toList, some ⟨some "e.xhtml".toList⟩⟩]

def wZeroPoint : NavPoint := ⟨some "0. Prologue".toList, some ⟨some "c.xhtml".toList⟩⟩

def wEntries : List BookEntry :=
  [⟨some 1, some (JNum.int 1), some "One".toList, none⟩,
   ⟨some 2, some (JNum.int 2), some "Two".toList, none⟩,
   ⟨some 3, some (JNum.int 3), some "Three".toList, none⟩]

def wPaths : List Str := ["a.m4a".toList, "b.m4a".toList, "c.m4a".toList]

def wProbe : Str → Nat := fun p =>
  if p = "a.m4a".toList then 60000 else if p = "b.m4a".toList then 45000 else 30000

def wFS : FileSys :=
  ⟨fun s => s == "stored.m4a".toList || s == "02. The Fall.m4a".toList, fun _ => false⟩

def wRoot : Str := "audio".toList

def wByNumber : List (Nat × Str) := [(2, "02. The Fall.m4a".toList)]

def wByTitle : List (Str × Str) := [("the fall".toList, "02. The Fall.m4a".toList)]

def wStoredEntry : BookEntry :=
  ⟨some 1, some (JNum.int 2), some "The Fall".toList, some "stored.m4a".toList⟩

def wLostEntry : BookEntry := ⟨none, none, none, none⟩

def wListing : List DirFile :=
  [⟨"2 - The Fall.m4a".toList, true⟩, ⟨"02. The Fall.m4a".toList, true⟩,
   ⟨"notes.txt".toList, true⟩, ⟨"subdir".toList, false⟩]

/-! ## Helper lemmas -/

lemma truthyNum_iff (o : Option Nat) : truthyNum o = true ↔ ∃ n, o = some n ∧ 0 < n := by
  cases o with
  | none => simp [truthyNum]
  | some n => simp [truthyNum, Nat.pos_iff_ne_zero]

lemma processNavPoint_some {k : Nat} {p : NavPoint} {e : TocEntry}
    (h : processNavPoint k p = some e) :
    e.order = k ∧ ∃ n, e.chapter_number = some n ∧ 0 < n := by
  simp only [processNavPoint] at h
  cases htr : truthyNum (_parse_chapter_number (some (navTitle p))) with
  | false => simp [htr] at h
  | true =>
    simp only [htr, if_true, Bool.not_true, Bool.false_eq_true, if_false] at h
    split at h
    · exact absurd h (by simp)
    · injection h with h
      subst h
      exact ⟨rfl, (truthyNum_iff _).mp htr⟩

lemma replaceChar_append (old : Char) (new : Str) (a b : Str) :
    replaceChar old new (a ++ b) = replaceChar old new a ++ replaceChar old new b := by
  simp [replaceChar]

lemma escape_append (a b : Str) :
    _escape_ffmetadata (a ++ b) = _escape_ffmetadata a ++ _escape_ffmetadata b := by
  simp only [_escape_ffmetadata, replaceChar_append]

lemma escape_single (c : Char) : _escape_ffmetadata [c] = escChar c := by
  by_cases h1 : c = '\\'
  · subst h1; decide
  · by_cases h2 : c = '\n'
    · subst h2; decide
    · by_cases h3 : c = '='
      · subst h3; decide
      · by_cases h4 : c = ';'
        · subst h4; decide
        · by_cases h5 : c = '#'
          · subst h5; decide
          · simp [_escape_ffmetadata, replaceChar, escChar, beq_iff_eq,
                  h1, h2, h3, h4, h5]

/-! ## Claim theorems -/

/-- C3: the chapter number parser does return the leading integer of a
digits-plus-period title, but the TOC builder does NOT strip exactly that
prefix: `title.lstrip(f"{chapter_number}. ")` strips a character SET, so
the title "1. 100 Days" is stored as "00 Days" instead of "100 Days".
This evaluates the embedded code at that failing input. -/
theorem epub_c3_lstrip_bug :
    _parse_chapter_number (some "1. 100 Days".toList) = some 1 ∧
    pyLstripSet "1. 100 Days".toList (natRepr 1 ++ ". ".toList) = "00 Days".toList ∧
    processNavPoint 1 ⟨some "1. 100 Days".toList, some ⟨some "ch1.xhtml".toList⟩⟩
      = some ⟨1, some 1, "00 Days".toList, some "ch1.xhtml".toList⟩ ∧
    ("00 Days".toList : Str) ≠ "100 Days".toList := by decide

/-- C4 counterexample: the builder's rewrite of toc.json does not merge.
A persisted artifact whose single entry carries markdown/audio annotations
loses both when the builder re-runs on the unchanged navigation document. -/
theorem epub_c4_overwrite_counterexample :
    wPrev.map PersistedEntry.audio = [some "a.m4a".toList] ∧
    wPrev.map PersistedEntry.markdown = [some "m.md".toList] ∧
    (generate_toc_write wNav wPrev).map PersistedEntry.audio = [none] ∧
    (generate_toc_write wNav wPrev).map PersistedEntry.markdown = [none] := by decide

/-- C4 amended: a builder re-run re-derives the manifest deterministically
from the navigation document alone — the written artifact is independent
of the previous artifact content — and the write is a full overwrite: no
entry of the rewritten artifact carries a markdown or audio annotation. -/
theorem epub_c4_full_overwrite (points : List NavPoint)
    (prev prev2 : List PersistedEntry) :
    generate_toc_write points prev = generate_toc_write points prev2 ∧
    ∀ e ∈ generate_toc_write points prev, e.markdown = none ∧ e.audio = none := by
  refine ⟨rfl, ?_⟩
  intro e he
  rw [generate_toc_write, List.mem_map] at he
  obtain ⟨a, -, rfl⟩ := he
  exact ⟨rfl, rfl⟩

/-- C4 witness: the amended theorem at the concrete one-point navigation
document and annotated previous artifact. -/
theorem epub_c4_full_overwrite_witness :
    generate_toc_write wNav wPrev = generate_toc_write wNav wPrev2 ∧
    (wWritten.markdown = none ∧ wWritten.audio = none) :=
  ⟨(epub_c4_full_overwrite wNav wPrev wPrev2).1,
   (epub_c4_full_overwrite wNav wPrev wPrev2).2 wWritten (by decide)⟩

/-- C5 counterexample: `_escape_ffmetadata` does not escape the newline:
the input consisting of one newline becomes one space — the newline is
deleted, not escaped, and no backslash-newline pair appears. -/
theorem epub_c5_newline_counterexample :
    _escape_ffmetadata ['\n'] = [' '] ∧
    ([' '] : Str) ≠ ['\\', '\n'] ∧
    '\n' ∉ _escape_ffmetadata ['\n'] := by decide

/-- C5 amended: the field escaper maps each character independently:
backslash, `=`, `;` and `#` are backslash-escaped, while a newline is
replaced by a plain space (all other characters pass through). -/
theorem epub_c5_escape_characterization (s : Str) :
    _escape_ffmetadata s = (s.map escChar).flatten ∧
    escChar '\\' = "\\\\".toList ∧ escChar '\n' = " ".toList ∧
    escChar '=' = "\\=".toList ∧ escChar ';' = "\\;".toList ∧
    escChar '#' = "\\#".toList := by
  refine ⟨?_, by decide, by decide, by decide, by decide, by decide⟩
  induction s with
  | nil => rfl
  | cons c rest ih =>
    rw [show (c :: rest : Str) = [c] ++ rest from rfl, escape_append,
        escape_single, ih]
    simp

/-- C6: when the extracted directory exists but contains no toc.ncx, the
builder fails with the NotFound error; when the navigation document is
found and parses with a navMap holding zero navPoints, the run returns
the empty manifest instead of failing. -/
theorem epub_c6_notfound_and_empty (d : ExtractedDir) (doc : NavDoc)
    (hex : d.dirExists = true) :
    (d.tocAtRoot = false → d.tocRglob = [] →
      generate_toc_run d = Except.error TocError.ncxNotFound) ∧
    (d.parsed = some doc → doc.hasNavMap = true → doc.points = [] →
      (d.tocAtRoot = true ∨ d.tocRglob ≠ []) →
      generate_toc_run d = Except.ok []) := by
  constructor
  · intro h1 h2
    simp [generate_toc_run, _find_toc_ncx, hex, h1, h2]
  · intro hp hm hpts hfound
    rcases hfound with hroot | hglob
    · simp [generate_toc_run, _find_toc_ncx, hex, hroot, hp, hm, hpts,
            generate_toc_entries, enumFrom]
    · cases hr : d.tocAtRoot <;>
        simp [generate_toc_run, _find_toc_ncx, hex, hr, hglob, hp, hm, hpts,
              generate_toc_entries, enumFrom, List.isEmpty_iff]

/-- C6 witness: the theorem applied to a directory with no toc.ncx and to
a directory whose toc.ncx parses to an empty navMap. -/
theorem epub_c6_witness :
    generate_toc_run wNoNcxDir = Except.error TocError.ncxNotFound ∧
    generate_toc_run wEmptyNavDir = Except.ok [] :=
  ⟨(epub_c6_notfound_and_empty wNoNcxDir wEmptyNavDoc rfl).1 rfl rfl,
   (epub_c6_notfound_and_empty wEmptyNavDir wEmptyNavDoc rfl).2 rfl rfl rfl
     (Or.inl rfl)⟩

/-- C10: a navPoint whose title parses to chapter number zero is processed
exactly like one with no parseable number — the point is dropped — and
consequently every emitted manifest entry carries a strictly positive
chapter number. -/
theorem epub_c10_zero_dropped :
    (∀ (k : Nat) (p : NavPoint),
        (_parse_chapter_number (some (navTitle p)) = some 0 ∨
         _parse_chapter_number (some (navTitle p)) = none) →
        processNavPoint k p = none) ∧
    (∀ (points : List NavPoint), ∀ e ∈ generate_toc_entries points,
        ∃ n, e.chapter_number = some n ∧ 0 < n) := by
  constructor
  · intro k p hp
    rcases hp with hp | hp <;> simp [processNavPoint, hp, truthyNum]
  · intro points e he
    rw [generate_toc_entries, List.mem_filterMap] at he
    obtain ⟨⟨k, p⟩, -, hg⟩ := he
    exact (processNavPoint_some hg).2

/-- C10 witness: the title "0. Prologue" parses to chapter number 0 and
its navPoint is dropped; the surviving entry of a concrete document has a
positive chapter number. -/
theorem epub_c10_zero_dropped_witness :
    processNavPoint 1 wZeroPoint = none ∧
    ∃ n, (⟨1, some 1, "A".toList, some "c1.xhtml".toList⟩ : TocEntry).chapter_number
          = some n ∧ 0 < n :=
  ⟨epub_c10_zero_dropped.1 1 wZeroPoint (Or.inl (by decide)),
   epub_c10_zero_dropped.2 wNav ⟨1, some 1, "A".toList, some "c1.xhtml".toList⟩
     (by decide)⟩

lemma ffChaptersGo_spec (probe : Str → Nat) (l : List (BookEntry × Str)) (cur : Nat) :
    (ffChaptersGo probe l cur).length = l.length ∧
    ∀ (i : Nat) (hi : i < (ffChaptersGo probe l cur).length),
      ((ffChaptersGo probe l cur).get ⟨i, hi⟩).startMs
        = cur + ((l.map (fun ep => probe ep.2)).take i).sum ∧
      ((ffChaptersGo probe l cur).get ⟨i, hi⟩).endMs
        = cur + ((l.map (fun ep => probe ep.2)).take (i + 1)).sum := by
  induction l generalizing cur with
  | nil =>
    exact ⟨rfl, fun i hi => by simp [ffChaptersGo] at hi⟩
  | cons ep rest ih =>
    have hlen : (ffChaptersGo probe (ep :: rest) cur).length = rest.length + 1 := by
      simp [ffChaptersGo, (ih (cur + probe ep.2)).1]
    refine ⟨hlen, ?_⟩
    intro i hi
    match i with
    | 0 =>
      constructor <;> simp [ffChaptersGo]
    | j + 1 =>
      have hj : j < (ffChaptersGo probe rest (cur + probe ep.2)).length := by
        rw [(ih (cur + probe ep.2)).1]
        rw [hlen] at hi
        omega
      have h1 := (ih (cur + probe ep.2)).2 j hj
      constructor
      · show ((ffChaptersGo probe rest (cur + probe ep.2)).get ⟨j, hj⟩).startMs = _
        rw [h1.1, List.map_cons, List.take_succ_cons, List.sum_cons]
        omega
      · show ((ffChaptersGo probe rest (cur + probe ep.2)).get ⟨j, hj⟩).endMs = _
        rw [h1.2, List.map_cons, List.take_succ_cons, List.sum_cons]
        omega

/-- C1: for a fully resolved manifest (as many audio paths as entries) the
metadata assembler emits one boundary per entry, boundary `i` starting at
`d1 + ... + di-1` and ending at `d1 + ... + di` in manifest order, the
first start being 0, adjacent boundaries contiguous, and the last end
being the total duration. -/
theorem epub_c1_boundaries (entries : List BookEntry) (paths : List Str)
    (probe : Str → Nat) (h : entries.length = paths.length) :
    ∃ chs, _build_ffmetadata entries paths probe = some chs ∧
      BoundariesOk (paths.map probe) chs := by
  refine ⟨ffChaptersGo probe (entries.zip paths) 0, by simp [_build_ffmetadata, h], ?_⟩
  have hzip : (entries.zip paths).map (fun ep => probe ep.2) = paths.map probe := by
    have h1 : (entries.zip paths).map Prod.snd = paths :=
      List.map_snd_zip entries paths (le_of_eq h.symm)
    calc (entries.zip paths).map (fun ep => probe ep.2)
        = ((entries.zip paths).map Prod.snd).map probe := by rw [List.map_map]; rfl
      _ = paths.map probe := by rw [h1]
  obtain ⟨hlen, hget⟩ := ffChaptersGo_spec probe (entries.zip paths) 0
  rw [hzip] at hget
  set chs := ffChaptersGo probe (entries.zip paths) 0 with hchs
  have hlen2 : chs.length = (paths.map probe).length := by
    rw [hlen, List.length_zip, h, List.length_map, Nat.min_self]
  refine ⟨hlen2, ?_, ?_, ?_⟩
  · intro i hi
    have hs : (chs.get ⟨i, hi⟩).startMs = ((paths.map probe).take i).sum := by
      have := (hget i hi).1
      simpa using this
    have he : (chs.get ⟨i, hi⟩).endMs = ((paths.map probe).take (i + 1)).sum := by
      have := (hget i hi).2
      simpa using this
    refine ⟨hs, he, ?_⟩
    have hid : i < (paths.map probe).length := by rw [← hlen2]; exact hi
    refine ⟨(paths.map probe).get ⟨i, hid⟩, List.get?_eq_get hid, ?_⟩
    rw [hs, he, List.sum_take_succ _ i hid, List.get_eq_getElem]
  · intro hne
    have hpos : 0 < chs.length := List.length_pos.mpr hne
    constructor
    · have h0 := (hget 0 hpos).1
      simp only [List.get_eq_getElem] at h0
      rw [List.head_eq_getElem_zero hne]
      simpa using h0
    · have hlt : chs.length - 1 < chs.length := by omega
      have hL := (hget (chs.length - 1) hlt).2
      simp only [List.get_eq_getElem] at hL
      have hix : chs.length - 1 + 1 = (paths.map probe).length := by
        rw [← hlen2]; omega
      rw [hix, List.take_length] at hL
      rw [List.getLast_eq_getElem]
      simpa using hL
  · intro i hi
    have hT := (hget (i + 1) hi).1
    have hE := (hget i (Nat.lt_of_succ_lt hi)).2
    rw [hT, hE]

/-- C1 witness: three chapters with probed durations 60000, 45000, 30000
milliseconds; the assembler succeeds and the boundary invariants hold. -/
theorem epub_c1_boundaries_witness :
    wEntries.length = wPaths.length ∧
    ∃ chs, _build_ffmetadata wEntries wPaths wProbe = some chs ∧
      BoundariesOk (wPaths.map wProbe) chs :=
  ⟨by decide, epub_c1_boundaries wEntries wPaths wProbe (by decide)⟩

lemma resolve_loop_used (fs : FileSys) (root : Str) (bn : List (Nat × Str))
    (bt : List (Str × Str)) (es : List BookEntry) :
    ∀ pr ∈ (_build_audiobook_resolve fs root bn bt es).1,
      resolveEntry fs root bn bt pr.1 = some pr.2 := by
  induction es with
  | nil => intro pr hpr; simp [_build_audiobook_resolve] at hpr
  | cons e rest ih =>
    intro pr hpr
    simp only [_build_audiobook_resolve] at hpr
    cases hres : resolveEntry fs root bn bt e with
    | some p =>
      rw [hres] at hpr
      rcases List.mem_cons.mp hpr with h | h
      · subst h; exact hres
      · exact ih pr h
    | none =>
      rw [hres] at hpr
      exact ih pr hpr

lemma resolve_loop_unmatched (fs : FileSys) (root : Str) (bn : List (Nat × Str))
    (bt : List (Str × Str)) (es : List BookEntry) (e : BookEntry) (he : e ∈ es)
    (hn : resolveEntry fs root bn bt e = none) :
    e ∈ (_build_audiobook_resolve fs root bn bt es).2 := by
  induction es with
  | nil => simp at he
  | cons x rest ih =>
    simp only [_build_audiobook_resolve]
    rcases List.mem_cons.mp he with h | h
    · subst h
      rw [hn]
      exact List.mem_cons_self _ _
    · cases hres : resolveEntry fs root bn bt x with
      | some p => exact ih h
      | none => exact List.mem_cons_of_mem _ (ih h)

lemma resolve_loop_used_mem (fs : FileSys) (root : Str) (bn : List (Nat × Str))
    (bt : List (Str × Str)) (es : List BookEntry) (e : BookEntry) (p : Str)
    (he : e ∈ es) (hr : resolveEntry fs root bn bt e = some p) :
    (e, p) ∈ (_build_audiobook_resolve fs root bn bt es).1 := by
  induction es with
  | nil => simp at he
  | cons x rest ih =>
    simp only [_build_audiobook_resolve]
    rcases List.mem_cons.mp he with h | h
    · subst h
      rw [hr]
      exact List.mem_cons_self _ _
    · cases hres : resolveEntry fs root bn bt x with
      | some q => exact List.mem_cons_of_mem _ (ih h)
      | none => exact ih h

/-- C2: the reconciler tries exactly the four tiers in order with the
first hit winning (the resolver equals the orElse chain of the tiers); an
entry whose stored path is valid resolves via it even when its chapter
number is also in the number index; an entry exhausting all four tiers
lands in the unmatched report and never in the resolved list; a resolved
entry is kept with its resolved path. -/
theorem epub_c2_cascade (fs : FileSys) (root : Str) (bn : List (Nat × Str))
    (bt : List (Str × Str)) (e : BookEntry) :
    CascadeOk fs root bn bt e ∧
    (∀ p q, tierStored fs root e = some p → tierNumber bn e = some q →
        resolveEntry fs root bn bt e = some p) ∧
    (∀ es, e ∈ es →
        tierStored fs root e = none → tierNumber bn e = none →
        tierOrder bn e = none → tierTitle bt e = none →
        e ∈ (_build_audiobook_resolve fs root bn bt es).2 ∧
        ∀ pr ∈ (_build_audiobook_resolve fs root bn bt es).1, pr.1 ≠ e) ∧
    (∀ es p, e ∈ es → resolveEntry fs root bn bt e = some p →
        (e, p) ∈ (_build_audiobook_resolve fs root bn bt es).1) := by
  refine ⟨?_, ?_, ?_, ?_⟩
  · unfold CascadeOk resolveEntry
    cases tierStored fs root e <;> cases tierNumber bn e <;>
      cases tierOrder bn e <;> rfl
  · intro p q h1 _h2
    simp [resolveEntry, h1]
  · intro es hin h1 h2 h3 h4
    have hnone : resolveEntry fs root bn bt e = none := by
      simp [resolveEntry, h1, h2, h3, h4]
    refine ⟨resolve_loop_unmatched fs root bn bt es e hin hnone, ?_⟩
    intro pr hpr heq
    have hres := resolve_loop_used fs root bn bt es pr hpr
    rw [heq, hnone] at hres
    exact Option.noConfusion hres
  · intro es p hin hr
    exact resolve_loop_used_mem fs root bn bt es e p hin hr

/-- C2 witness: an entry with a valid stored path AND a matching chapter
number resolves to the stored path (tier 1 wins over tier 2), and an entry
with nothing to match is reported unmatched and excluded. -/
theorem epub_c2_cascade_witness :
    (resolveEntry wFS wRoot wByNumber wByTitle wStoredEntry
        = some "stored.m4a".toList) ∧
    (wLostEntry ∈ (_build_audiobook_resolve wFS wRoot wByNumber wByTitle
        [wStoredEntry, wLostEntry]).2 ∧
     ∀ pr ∈ (_build_audiobook_resolve wFS wRoot wByNumber wByTitle
        [wStoredEntry, wLostEntry]).1, pr.1 ≠ wLostEntry) :=
  ⟨(epub_c2_cascade wFS wRoot wByNumber wByTitle wStoredEntry).2.1
      "stored.m4a".toList "02. The Fall.m4a".toList (by decide) (by decide),
   (epub_c2_cascade wFS wRoot wByNumber wByTitle wLostEntry).2.2.1
      [wStoredEntry, wLostEntry] (by decide) (by decide) (by decide)
      (by decide) (by decide)⟩

lemma enumFrom_filterMap_mem (k : Nat) (points : List NavPoint) (e : TocEntry)
    (he : e ∈ (enumFrom k points).filterMap (fun op => processNavPoint op.1 op.2)) :
    k ≤ e.order ∧ e.order < k + points.length ∧
    ∃ p, points.get? (e.order - k) = some p ∧ processNavPoint e.order p = some e := by
  induction points generalizing k with
  | nil => simp [enumFrom] at he
  | cons p ps ih =>
    simp only [enumFrom, List.filterMap_cons] at he
    have tailCase :
        e ∈ (enumFrom (k + 1) ps).filterMap (fun op => processNavPoint op.1 op.2) →
        k ≤ e.order ∧ e.order < k + (p :: ps).length ∧
        ∃ q, (p :: ps).get? (e.order - k) = some q ∧
          processNavPoint e.order q = some e := by
      intro ht
      obtain ⟨h1, h2, q, hq, hpq⟩ := ih (k + 1) ht
      refine ⟨by omega, by simp only [List.length_cons]; omega, q, ?_, hpq⟩
      have hix : e.order - k = (e.order - (k + 1)) + 1 := by omega
      rw [hix, List.get?_cons_succ]
      exact hq
    cases hp : processNavPoint k p with
    | some x =>
      rw [hp] at he
      rcases List.mem_cons.mp he with h | h
      · subst h
        have hord := (processNavPoint_some hp).1
        refine ⟨le_of_eq hord.symm, ?_, p, ?_, ?_⟩
        · simp only [List.length_cons]; omega
        · rw [hord, Nat.sub_self]; rfl
        · rw [hord]; exact hp
      · exact tailCase h
    | none =>
      rw [hp] at he
      exact tailCase he

lemma enumFrom_filterMap_orders (k : Nat) (points : List NavPoint) :
    (((enumFrom k points).filterMap
        (fun op => processNavPoint op.1 op.2)).map TocEntry.order).Pairwise (· < ·) := by
  induction points generalizing k with
  | nil => simp [enumFrom]
  | cons p ps ih =>
    simp only [enumFrom, List.filterMap_cons]
    cases hp : processNavPoint k p with
    | some x =>
      rw [List.map_cons, List.pairwise_cons]
      constructor
      · intro b hb
        rw [List.mem_map] at hb
        obtain ⟨e, he, rfl⟩ := hb
        have := (enumFrom_filterMap_mem (k + 1) ps e he).1
        have hx := (processNavPoint_some hp).1
        omega
      · exact ih (k + 1)
    | none => exact ih (k + 1)

/-- C7: the manifest's `order` values are strictly increasing, and each
surviving entry's `order` is its 1-based traversal position among ALL
navPoints of the document (the navPoint at index `order - 1` is the one
that produced it), so survivors may show gaps. -/
theorem epub_c7_orders (points : List NavPoint) : OrdersOk points := by
  constructor
  · exact enumFrom_filterMap_orders 1 points
  · intro e he
    obtain ⟨h1, h2, p, hp, hpp⟩ :=
      enumFrom_filterMap_mem 1 points e (by simpa [generate_toc_entries] using he)
    exact ⟨h1, by omega, p, hp, hpp⟩

/-- C7 witness: a document whose middle navPoint is filtered out yields
orders 1 and 3 — strictly increasing, with a gap, each the traversal
position of its source navPoint. -/
theorem epub_c7_orders_witness : OrdersOk wPoints := epub_c7_orders wPoints

lemma orElse_none_r (o : Option α) : (o.orElse fun _ => none) = o := by
  cases o <;> rfl

lemma orElse_orElse (a : Option α) (b c : Unit → Option α) :
    (a.orElse b).orElse c = a.orElse (fun _ => (b ()).orElse c) := by
  cases a <;> rfl

lemma lookupNumL_append (m1 m2 : List (Nat × Str)) (n : Nat) :
    lookupNumL (m1 ++ m2) n = (lookupNumL m1 n).orElse (fun _ => lookupNumL m2 n) := by
  induction m1 with
  | nil => simp [lookupNumL, Option.orElse]
  | cons kv rest ih =>
    simp only [lookupNumL, List.cons_append, List.find?] at ih ⊢
    cases h : kv.1 == n with
    | true => simp [h, Option.orElse]
    | false => simpa [h, Option.orElse] using ih

lemma lookupStrL_append (m1 m2 : List (Str × Str)) (t : Str) :
    lookupStrL (m1 ++ m2) t = (lookupStrL m1 t).orElse (fun _ => lookupStrL m2 t) := by
  induction m1 with
  | nil => simp [lookupStrL, Option.orElse]
  | cons kv rest ih =>
    simp only [lookupStrL, List.cons_append, List.find?] at ih ⊢
    cases h : kv.1 == t with
    | true => simp [h, Option.orElse]
    | false => simpa [h, Option.orElse] using ih

lemma lookupNumL_setdefault (m : List (Nat × Str)) (k : Nat) (v : Str) (n : Nat) :
    lookupNumL (setdefaultNum m k v) n =
      if k = n then (lookupNumL m n).orElse (fun _ => some v)
      else lookupNumL m n := by
  unfold setdefaultNum
  by_cases hk : (lookupNumL m k).isSome
  · rw [if_pos hk]
    by_cases hkn : k = n
    · subst hkn
      rw [if_pos rfl]
      obtain ⟨w, hw⟩ := Option.isSome_iff_exists.mp hk
      rw [hw]; rfl
    · rw [if_neg hkn]
  · rw [if_neg hk, lookupNumL_append]
    by_cases hkn : k = n
    · subst hkn
      have hnone : lookupNumL m k = none := Option.not_isSome_iff_eq_none.mp hk
      rw [if_pos rfl, hnone]
      simp [lookupNumL, Option.orElse]
    · rw [if_neg hkn]
      have hone : lookupNumL [(k, v)] n = none := by
        have hb : (k == n) = false := by simp [hkn]
        simp [lookupNumL, List.find?, hb]
      rw [hone, orElse_none_r]

lemma lookupStrL_setdefault (m : List (Str × Str)) (k : Str) (v : Str) (t : Str) :
    lookupStrL (setdefaultStr m k v) t =
      if k = t then (lookupStrL m t).orElse (fun _ => some v)
      else lookupStrL m t := by
  unfold setdefaultStr
  by_cases hk : (lookupStrL m k).isSome
  · rw [if_pos hk]
    by_cases hkt : k = t
    · subst hkt
      rw [if_pos rfl]
      obtain ⟨w, hw⟩ := Option.isSome_iff_exists.mp hk
      rw [hw]; rfl
    · rw [if_neg hkt]
  · rw [if_neg hk, lookupStrL_append]
    by_cases hkt : k = t
    · subst hkt
      have hnone : lookupStrL m k = none := Option.not_isSome_iff_eq_none.mp hk
      rw [if_pos rfl, hnone]
      simp [lookupStrL, Option.orElse]
    · rw [if_neg hkt]
      have hone : lookupStrL [(k, v)] t = none := by
        have hb : (k == t) = false := by simp [hkt]
        simp [lookupStrL, List.find?, hb]
      rw [hone, orElse_none_r]

lemma indexFile_by_number_eq (acc : AudioIndex) (f : DirFile) :
    (indexFile acc f).by_number =
      if fileEligible f then
        match matchLeadingNum (pyStem f.name) with
        | some ng => setdefaultNum acc.by_number ng.1 f.name
        | none => acc.by_number
      else acc.by_number := by
  unfold indexFile fileEligible
  by_cases hf : f.isFile
  · by_cases hext : AUDIO_EXTS.contains (toLowerStr (pySuffix f.name))
    · simp only [hf, hext, Bool.not_true, Bool.and_self, if_true, Bool.false_eq_true,
                 if_false]
      cases hm : matchLeadingNum (pyStem f.name) with
      | some ng => by_cases ht : (pyStrip ng.2).isEmpty <;> simp [ht]
      | none => by_cases ht : (pyStem f.name).isEmpty <;> simp [ht]
    · have hext2 : ¬ toLowerStr (pySuffix f.name) ∈ AUDIO_EXTS := by
        simpa using hext
      simp [hf, hext, hext2]
  · simp [hf]

lemma indexFile_by_title_eq (acc : AudioIndex) (f : DirFile) :
    (indexFile acc f).by_title =
      if fileEligible f then
        match fileTitleKey f with
        | some key => setdefaultStr acc.by_title key f.name
        | none => acc.by_title
      else acc.by_title := by
  unfold indexFile fileEligible fileTitleKey
  by_cases hf : f.isFile
  · by_cases hext : AUDIO_EXTS.contains (toLowerStr (pySuffix f.name))
    · simp only [hf, hext, Bool.not_true, Bool.and_self, if_true, Bool.false_eq_true,
                 if_false]
      cases hm : matchLeadingNum (pyStem f.name) with
      | some ng => by_cases ht : (pyStrip ng.2).isEmpty <;> simp [ht]
      | none => by_cases ht : (pyStem f.name).isEmpty <;> simp [ht]
    · have hext2 : ¬ toLowerStr (pySuffix f.name) ∈ AUDIO_EXTS := by
        simpa using hext
      simp [hf, hext, hext2]
  · simp [hf]

lemma indexFile_lookupNum (acc : AudioIndex) (f : DirFile) (n : Nat) :
    lookupNumL (indexFile acc f).by_number n =
      if fileEligible f = true ∧ fileNumber f = some n then
        (lookupNumL acc.by_number n).orElse (fun _ => some f.name)
      else lookupNumL acc.by_number n := by
  rw [indexFile_by_number_eq]
  by_cases he : fileEligible f
  · rw [if_pos he]
    cases hm : matchLeadingNum (pyStem f.name) with
    | none =>
      have hfn : fileNumber f = none := by simp [fileNumber, hm]
      rw [if_neg (by rintro ⟨-, hc⟩; rw [hfn] at hc; exact Option.noConfusion hc)]
    | some ng =>
      have hfn : fileNumber f = some ng.1 := by simp [fileNumber, hm]
      rw [lookupNumL_setdefault]
      by_cases hn : ng.1 = n
      · subst hn
        rw [if_pos rfl, if_pos ⟨he, hfn⟩]
      · rw [if_neg hn,
            if_neg (by rintro ⟨-, hc⟩; rw [hfn] at hc;
                       exact hn (Option.some_injective _ hc))]
  · rw [if_neg he, if_neg (by rintro ⟨hc, -⟩; exact he hc)]

lemma indexFile_lookupStr (acc : AudioIndex) (f : DirFile) (t : Str) :
    lookupStrL (indexFile acc f).by_title t =
      if fileEligible f = true ∧ fileTitleKey f = some t then
        (lookupStrL acc.by_title t).orElse (fun _ => some f.name)
      else lookupStrL acc.by_title t := by
  rw [indexFile_by_title_eq]
  by_cases he : fileEligible f
  · rw [if_pos he]
    cases hm : fileTitleKey f with
    | none =>
      rw [if_neg (by rintro ⟨-, hc⟩; exact Option.noConfusion hc)]
    | some key =>
      rw [lookupStrL_setdefault]
      by_cases hk : key = t
      · subst hk
        rw [if_pos rfl, if_pos ⟨he, rfl⟩]
      · rw [if_neg hk,
            if_neg (by rintro ⟨-, hc⟩; exact hk (Option.some_injective _ hc))]
  · rw [if_neg he, if_neg (by rintro ⟨hc, -⟩; exact he hc)]

lemma foldl_indexFile_num (fs : List DirFile) (acc : AudioIndex) (n : Nat) :
    lookupNumL (fs.foldl indexFile acc).by_number n =
      (lookupNumL acc.by_number n).orElse (fun _ =>
        ((fs.filter fileEligible).find? (fun f => fileNumber f == some n)).map
          DirFile.name) := by
  induction fs generalizing acc with
  | nil => simp [orElse_none_r]
  | cons f fs' ih =>
    rw [List.foldl_cons, ih, indexFile_lookupNum]
    by_cases he : fileEligible f
    · by_cases hn : fileNumber f = some n
      · rw [if_pos ⟨he, hn⟩, orElse_orElse]
        rw [List.filter_cons_of_pos he,
            List.find?_cons_of_pos _ (by simp [hn])]
        rfl
      · rw [if_neg (by rintro ⟨-, hc⟩; exact hn hc)]
        rw [List.filter_cons_of_pos he,
            List.find?_cons_of_neg _ (by simp [hn])]
    · rw [if_neg (by rintro ⟨hc, -⟩; exact he hc), List.filter_cons_of_neg he]

lemma foldl_indexFile_str (fs : List DirFile) (acc : AudioIndex) (t : Str) :
    lookupStrL (fs.foldl indexFile acc).by_title t =
      (lookupStrL acc.by_title t).orElse (fun _ =>
        ((fs.filter fileEligible).find? (fun f => fileTitleKey f == some t)).map
          DirFile.name) := by
  induction fs generalizing acc with
  | nil => simp [orElse_none_r]
  | cons f fs' ih =>
    rw [List.foldl_cons, ih, indexFile_lookupStr]
    by_cases he : fileEligible f
    · by_cases hk : fileTitleKey f = some t
      · rw [if_pos ⟨he, hk⟩, orElse_orElse]
        rw [List.filter_cons_of_pos he,
            List.find?_cons_of_pos _ (by simp [hk])]
        rfl
      · rw [if_neg (by rintro ⟨-, hc⟩; exact hk hc)]
        rw [List.filter_cons_of_pos he,
            List.find?_cons_of_neg _ (by simp [hk])]
    · rw [if_neg (by rintro ⟨hc, -⟩; exact he hc), List.filter_cons_of_neg he]

/-- C8: the indexer returns two empty indices for a missing directory
instead of raising, and when the directory exists each index slot resolves
to the FIRST file in sorted-filtered filename order that registers the
key — first file wins every collision. -/
theorem epub_c8_indexer (listing : List DirFile) : IndexOk listing := by
  refine ⟨rfl, ?_, ?_⟩
  · intro n
    show lookupNumL ((sortByName listing).foldl indexFile ⟨[], []⟩).by_number n = _
    rw [foldl_indexFile_num]
    simp [lookupNumL, Option.orElse]
  · intro t
    show lookupStrL ((sortByName listing).foldl indexFile ⟨[], []⟩).by_title t = _
    rw [foldl_indexFile_str]
    simp [lookupStrL, Option.orElse]

/-- C8 witness: a listing with a number collision (files "02. The Fall.m4a"
and "2 - The Fall.m4a"), a non-audio file and a subdirectory. -/
theorem epub_c8_indexer_witness : IndexOk wListing := epub_c8_indexer wListing

lemma head?_mem {l : Str} {c : Char} (h : l.head? = some c) : c ∈ l := by
  cases l with
  | nil => simp at h
  | cons a rest => simp at h; subst h; simp

lemma alnum_not_space {c : Char} (h : isLowerAlnum c = true) : isPySpace c = false := by
  simp only [isLowerAlnum, Bool.or_eq_true, Bool.and_eq_true, decide_eq_true_eq] at h
  by_contra hsp
  rw [Bool.not_eq_false] at hsp
  simp only [isPySpace, Bool.or_eq_true, beq_iff_eq] at hsp
  rcases hsp with ((((h1 | h1) | h1) | h1) | h1) | h1 <;>
    (subst h1; revert h; decide)

lemma squashRuns_chars {c : Char} :
    ∀ (s : Str) (b : Bool), c ∈ squashRuns b s → isLowerAlnum c = true ∨ c = ' ' := by
  intro s
  induction s with
  | nil => intro b hc; simp [squashRuns] at hc
  | cons d rest ih =>
    intro b hc
    by_cases hd : isLowerAlnum d
    · simp only [squashRuns, hd, if_true] at hc
      rcases List.mem_cons.mp hc with h | h
      · subst h; exact Or.inl hd
      · exact ih false h
    · cases b with
      | true =>
        simp only [squashRuns, hd, Bool.false_eq_true, if_false, if_true] at hc
        exact ih true hc
      | false =>
        simp only [squashRuns, hd, Bool.false_eq_true, if_false] at hc
        rcases List.mem_cons.mp hc with h | h
        · subst h; exact Or.inr rfl
        · exact ih true h

lemma splitAux_words :
    ∀ (s acc : Str), (∀ c ∈ acc, isPySpace c = false) →
      ∀ w ∈ splitAux acc s, w ≠ [] ∧ ∀ c ∈ w, isPySpace c = false := by
  intro s
  induction s with
  | nil =>
    intro acc hacc w hw
    by_cases ha : acc.isEmpty
    · simp [splitAux, ha] at hw
    · simp only [splitAux, ha, Bool.false_eq_true, if_false] at hw
      rcases List.mem_cons.mp hw with h | h
      · subst h
        refine ⟨by simpa using ha, fun c hc => hacc c (by simpa using hc)⟩
      · simp at h
  | cons c rest ih =>
    intro acc hacc w hw
    by_cases hs : isPySpace c
    · by_cases ha : acc.isEmpty
      · simp only [splitAux, hs, if_true, ha] at hw
        exact ih [] (by simp) w hw
      · simp only [splitAux, hs, if_true, ha, Bool.false_eq_true, if_false] at hw
        rcases List.mem_cons.mp hw with h | h
        · subst h
          refine ⟨by simpa using ha, fun d hd => hacc d (by simpa using hd)⟩
        · exact ih [] (by simp) w h
    · simp only [splitAux, hs, Bool.false_eq_true, if_false] at hw
      refine ih (c :: acc) ?_ w hw
      intro d hd
      rcases List.mem_cons.mp hd with h | h
      · subst h; simpa using hs
      · exact hacc d h

lemma splitAux_chars_mem :
    ∀ (s acc : Str), ∀ w ∈ splitAux acc s, ∀ c ∈ w, c ∈ s ∨ c ∈ acc := by
  intro s
  induction s with
  | nil =>
    intro acc w hw c hc
    by_cases ha : acc.isEmpty
    · simp [splitAux, ha] at hw
    · simp only [splitAux, ha, Bool.false_eq_true, if_false] at hw
      rcases List.mem_cons.mp hw with h | h
      · subst h; exact Or.inr (by simpa using hc)
      · simp at h
  | cons a rest ih =>
    intro acc w hw c hc
    by_cases hs : isPySpace a
    · by_cases ha : acc.isEmpty
      · simp only [splitAux, hs, if_true, ha] at hw
        rcases ih [] w hw c hc with h | h
        · exact Or.inl (by simp [h])
        · simp at h
      · simp only [splitAux, hs, if_true, ha, Bool.false_eq_true, if_false] at hw
        rcases List.mem_cons.mp hw with h | h
        · subst h; exact Or.inr (by simpa using hc)
        · rcases ih [] w h c hc with h2 | h2
          · exact Or.inl (by simp [h2])
          · simp at h2
    · simp only [splitAux, hs, Bool.false_eq_true, if_false] at hw
      rcases ih (a :: acc) w hw c hc with h | h
      · exact Or.inl (by simp [h])
      · rcases List.mem_cons.mp h with h2 | h2
        · subst h2; exact Or.inl (by simp)
        · exact Or.inr h2

lemma normalize_words (x : Str) :
    ∀ w ∈ pySplit (subNonAlnum x), w ≠ [] ∧ ∀ c ∈ w, isLowerAlnum c = true := by
  intro w hw
  obtain ⟨hne, hch⟩ := splitAux_words (subNonAlnum x) [] (by simp) w hw
  refine ⟨hne, fun c hc => ?_⟩
  have hmem : c ∈ subNonAlnum x := by
    rcases splitAux_chars_mem (subNonAlnum x) [] w hw c hc with h | h
    · exact h
    · simp at h
  rcases squashRuns_chars x false hmem with h | h
  · exact h
  · subst h
    exact absurd (hch ' ' hc) (by decide)

lemma joinSpace_cons2 (w v : Str) (r : List Str) :
    joinSpace (w :: v :: r) = w ++ ' ' :: joinSpace (v :: r) := rfl

lemma joinSpace_ne_nil {v : Str} (hv : v ≠ []) (r : List Str) :
    joinSpace (v :: r) ≠ [] := by
  rcases v with _ | ⟨a, v'⟩
  · exact absurd rfl hv
  · rcases r with _ | ⟨u, r'⟩
    · simp [joinSpace]
    · rw [joinSpace_cons2]; simp

lemma head?_append_left (l l' : Str) (h : l ≠ []) : (l ++ l').head? = l.head? := by
  rcases l with _ | ⟨a, rest⟩
  · exact absurd rfl h
  · simp

lemma joinSpace_chars :
    ∀ (ws : List Str), (∀ w ∈ ws, ∀ c ∈ w, isLowerAlnum c = true) →
      ∀ c ∈ joinSpace ws, isLowerAlnum c = true ∨ c = ' ' := by
  intro ws
  induction ws with
  | nil => intro _ c hc; simp [joinSpace] at hc
  | cons w rest ih =>
    intro hal c hc
    rcases rest with _ | ⟨v, r⟩
    · exact Or.inl (hal w (by simp) c (by simpa [joinSpace] using hc))
    · rw [joinSpace_cons2] at hc
      rcases List.mem_append.mp hc with h | h
      · exact Or.inl (hal w (by simp) c h)
      · rcases List.mem_cons.mp h with h2 | h2
        · exact Or.inr h2
        · exact ih (fun u hu => hal u (by simp [hu])) c h2

lemma joinSpace_head :
    ∀ (ws : List Str), (∀ w ∈ ws, w ≠ []) →
      (∀ w ∈ ws, ∀ c ∈ w, isLowerAlnum c = true) →
      ∀ c, (joinSpace ws).head? = some c → isLowerAlnum c = true := by
  intro ws hne hal c hc
  rcases ws with _ | ⟨w, rest⟩
  · simp [joinSpace] at hc
  · rcases hw : w with _ | ⟨a, w'⟩
    · exact absurd hw (hne w (by simp))
    · subst hw
      rcases rest with _ | ⟨v, r⟩
      · simp only [joinSpace, List.head?_cons, Option.some.injEq] at hc
        exact hc ▸ hal (a :: w') (by simp) a (by simp)
      · rw [joinSpace_cons2] at hc
        simp only [List.cons_append, List.head?_cons, Option.some.injEq] at hc
        exact hc ▸ hal (a :: w') (by simp) a (by simp)

lemma joinSpace_last :
    ∀ (ws : List Str), (∀ w ∈ ws, w ≠ []) →
      (∀ w ∈ ws, ∀ c ∈ w, isLowerAlnum c = true) →
      ∀ c, (joinSpace ws).reverse.head? = some c → isLowerAlnum c = true := by
  intro ws
  induction ws with
  | nil => intro _ _ c hc; simp [joinSpace] at hc
  | cons w rest ih =>
    intro hne hal c hc
    rcases rest with _ | ⟨v, r⟩
    · have hcw : c ∈ w := by
        have := head?_mem hc
        simpa [joinSpace] using this
      exact hal w (by simp) c hcw
    · rw [joinSpace_cons2, List.reverse_append, List.reverse_cons,
          List.append_assoc] at hc
      have hJne : joinSpace (v :: r) ≠ [] := joinSpace_ne_nil (hne v (by simp)) r
      have hJr : (joinSpace (v :: r)).reverse ≠ [] := by simpa using hJne
      rw [head?_append_left _ _ hJr] at hc
      exact ih (fun u hu => hne u (by simp [hu]))
        (fun u hu => hal u (by simp [hu])) c hc

lemma dropWhile_nonspace :
    ∀ (s : Str), (∀ c, s.head? = some c → isPySpace c = false) →
      s.dropWhile isPySpace = s := by
  intro s h
  cases s with
  | nil => rfl
  | cons c rest =>
    rw [List.dropWhile_cons, h c rfl]
    simp

lemma pyStrip_fix {t : Str}
    (hhead : ∀ c, t.head? = some c → isPySpace c = false)
    (hlast : ∀ c, t.reverse.head? = some c → isPySpace c = false) :
    pyStrip t = t := by
  unfold pyStrip
  rw [dropWhile_nonspace t hhead, dropWhile_nonspace t.reverse hlast,
      List.reverse_reverse]

lemma toLower_fix {c : Char} (h : isLowerAlnum c = true ∨ c = ' ') :
    Char.toLower c = c := by
  have hn : ¬ (c.toNat ≥ 65 ∧ c.toNat ≤ 90) := by
    rcases h with h | h
    · simp only [isLowerAlnum, Bool.or_eq_true, Bool.and_eq_true,
                 decide_eq_true_eq] at h
      omega
    · subst h; decide
  rw [Char.toLower, if_neg hn]

lemma toLowerStr_fix :
    ∀ (s : Str), (∀ c ∈ s, isLowerAlnum c = true ∨ c = ' ') → toLowerStr s = s := by
  intro s
  induction s with
  | nil => intro _; rfl
  | cons c rest ih =>
    intro h
    show Char.toLower c :: rest.map Char.toLower = c :: rest
    rw [toLower_fix (h c (by simp))]
    have := ih (fun d hd => h d (by simp [hd]))
    rw [show rest.map Char.toLower = toLowerStr rest from rfl, this]

lemma squashRuns_word :
    ∀ (w : Str), w ≠ [] → (∀ c ∈ w, isLowerAlnum c = true) →
      ∀ (b : Bool) (rest : Str),
        squashRuns b (w ++ rest) = w ++ squashRuns false rest := by
  intro w
  induction w with
  | nil => intro h; exact absurd rfl h
  | cons a w' ih =>
    intro _ hal b rest
    have ha : isLowerAlnum a = true := hal a (by simp)
    rw [List.cons_append]
    simp only [squashRuns, ha, if_true]
    rcases w' with _ | ⟨d, w''⟩
    · simp
    · rw [ih (by simp) (fun c hc => hal c (by simp [hc])) false rest]
      rfl

lemma squashRuns_flag :
    ∀ (s : Str), (∀ c, s.head? = some c → isLowerAlnum c = true) →
      squashRuns true s = squashRuns false s := by
  intro s h
  cases s with
  | nil => rfl
  | cons a rest =>
    have := h a rfl
    simp [squashRuns, this]

lemma squashRuns_join :
    ∀ (ws : List Str), (∀ w ∈ ws, w ≠ []) →
      (∀ w ∈ ws, ∀ c ∈ w, isLowerAlnum c = true) →
      squashRuns false (joinSpace ws) = joinSpace ws := by
  intro ws
  induction ws with
  | nil => intro _ _; rfl
  | cons w rest ih =>
    intro hne hal
    rcases rest with _ | ⟨v, r⟩
    · have := squashRuns_word w (hne w (by simp)) (hal w (by simp)) false []
      simpa [joinSpace, squashRuns] using this
    · rw [joinSpace_cons2,
          squashRuns_word w (hne w (by simp)) (hal w (by simp)) false
            (' ' :: joinSpace (v :: r))]
      congr 1
      have hsp : isLowerAlnum ' ' = false := by decide
      simp only [squashRuns, hsp, Bool.false_eq_true, if_false]
      congr 1
      rw [squashRuns_flag _ (joinSpace_head (v :: r)
            (fun u hu => hne u (by simp [hu]))
            (fun u hu => hal u (by simp [hu])))]
      exact ih (fun u hu => hne u (by simp [hu])) (fun u hu => hal u (by simp [hu]))

lemma splitAux_word_chars :
    ∀ (w acc s : Str), (∀ c ∈ w, isPySpace c = false) →
      splitAux acc (w ++ s) = splitAux (w.reverse ++ acc) s := by
  intro w
  induction w with
  | nil => intro acc s _; simp
  | cons a w' ih =>
    intro acc s hw
    have ha : isPySpace a = false := hw a (by simp)
    rw [List.cons_append]
    simp only [splitAux, ha, Bool.false_eq_true, if_false]
    rw [ih (a :: acc) s (fun c hc => hw c (by simp [hc]))]
    congr 1
    simp

lemma pySplit_join :
    ∀ (ws : List Str), (∀ w ∈ ws, w ≠ []) →
      (∀ w ∈ ws, ∀ c ∈ w, isLowerAlnum c = true) →
      pySplit (joinSpace ws) = ws := by
  intro ws
  induction ws with
  | nil => intro _ _; rfl
  | cons w rest ih =>
    intro hne hal
    have hw_ns : ∀ c ∈ w, isPySpace c = false :=
      fun c hc => alnum_not_space (hal w (by simp) c hc)
    have hwne : w ≠ [] := hne w (by simp)
    have h2 : w.reverse.isEmpty = false := by
      simpa using hwne
    rcases rest with _ | ⟨v, r⟩
    · show splitAux [] (joinSpace [w]) = [w]
      have h1 : joinSpace [w] = w ++ [] := by simp [joinSpace]
      rw [h1, splitAux_word_chars w [] [] hw_ns, List.append_nil]
      simp [splitAux, h2]
    · show splitAux [] (joinSpace (w :: v :: r)) = w :: v :: r
      rw [joinSpace_cons2, splitAux_word_chars w [] (' ' :: joinSpace (v :: r)) hw_ns,
          List.append_nil]
      have hsp : isPySpace ' ' = true := by decide
      simp only [splitAux, hsp, if_true, h2, Bool.false_eq_true, if_false,
                 List.reverse_reverse]
      congr 1
      exact ih (fun u hu => hne u (by simp [hu])) (fun u hu => hal u (by simp [hu]))

/-- C9: title normalization is idempotent — normalizing an already
normalized string returns it unchanged, for every input string. -/
theorem epub_c9_normalize_idempotent (s : Str) :
    _normalize_title (_normalize_title s) = _normalize_title s := by
  have hgood := normalize_words (toLowerStr (pyStrip s))
  set ws := pySplit (subNonAlnum (toLowerStr (pyStrip s))) with hws
  have hne : ∀ w ∈ ws, w ≠ [] := fun w hw => (hgood w hw).1
  have hal : ∀ w ∈ ws, ∀ c ∈ w, isLowerAlnum c = true := fun w hw => (hgood w hw).2
  show _normalize_title (joinSpace ws) = joinSpace ws
  have hchars := joinSpace_chars ws hal
  have hhead : ∀ c, (joinSpace ws).head? = some c → isPySpace c = false :=
    fun c hc => alnum_not_space (joinSpace_head ws hne hal c hc)
  have hlast : ∀ c, (joinSpace ws).reverse.head? = some c → isPySpace c = false :=
    fun c hc => alnum_not_space (joinSpace_last ws hne hal c hc)
  show joinSpace (pySplit (subNonAlnum (toLowerStr (pyStrip (joinSpace ws)))))
      = joinSpace ws
  rw [pyStrip_fix hhead hlast, toLowerStr_fix (joinSpace ws) hchars]
  show joinSpace (pySplit (squashRuns false (joinSpace ws))) = joinSpace ws
  rw [squashRuns_join ws hne hal, pySplit_join ws hne hal]

end Epub2Audio












